import Mathlib

/-!
Verification of the flexdb transactional object store (src/flexdb.go).

The Go code is shallowly embedded as follows.

* Go maps are modelled as association lists `List (String × α)`; Go map
  iteration order is unspecified, so the model fixes the list order (all
  claims settled below are insensitive to that order, or are evaluated at
  concrete inputs where the order is fixed by the construction).
* `Entity` is the interface implemented by caller structs; the model has a
  constructor for an arbitrary caller struct with reflection-visible
  fields (`Entity.record`) and one for the library's own
  `MigrationVersion` struct.
* Reflection (`reflect.ValueOf(e).Elem().FieldByName(f)`) becomes a field
  lookup returning `Option Value`; `reflect.Value.String()` on a
  non-string field yields a kind tag such as "<int Value>" and on an
  invalid value "<invalid Value>", as in Go.
* A Go `panic` is a distinct outcome (`Outcome.panicked` /
  `Except.error` in inner helpers), never conflated with a returned
  `error` value (modelled as `Option String`).
* `Database.save` (JSON serialization plus file write) either replaces the
  persisted snapshot with the current canonical map or fails; the model
  takes a `saveOk : Bool` parameter selecting the outcome.
* In Go, hooks and migrations are function-valued fields of `Database`;
  a Lean structure cannot contain functions consuming the structure
  itself, so the model passes the hook table and migration list as
  explicit parameters.  They are never mutated during the modelled
  operations.
* The go-cache TTL is not modelled: claims below do not concern expiry,
  and the spec requires expired entries to behave as absent.
-/

namespace FlexDB

/-- A field value as seen through reflection: a string field, an int
field, or a field of a user-defined type implementing the library's
`Comparable` interface (carrying its comparison key). -/
inductive Value where
  | str (s : String)
  | int (n : Int)
  | cmp (n : Int)
deriving DecidableEq, Repr

/-- An entity: either an arbitrary caller struct implementing the
`Entity` interface (id plus reflection-visible named fields), or the
library's own `MigrationVersion` struct (fields `ID` and `Version`). -/
inductive Entity where
  | record (id : String) (fields : List (String × Value))
  | migrationVersion (id : String) (version : Int)
deriving DecidableEq, Repr

/-- `Entity.GetID`. -/
def Entity.getID : Entity → String
  | .record i _ => i
  | .migrationVersion i _ => i

/-- Association-list lookup: first binding for the key (Go map read). -/
def lookupA {α : Type} : List (String × α) → String → Option α
  | [], _ => none
  | (k, v) :: rest, k' => if k = k' then some v else lookupA rest k'

/-- Association-list update: replace the first binding in place or append
(Go map write). -/
def insertA {α : Type} : List (String × α) → String → α → List (String × α)
  | [], k, v => [(k, v)]
  | (k', v') :: rest, k, v =>
    if k' = k then (k, v) :: rest else (k', v') :: insertA rest k v

/-- Association-list removal of the first binding (Go map delete). -/
def eraseA {α : Type} : List (String × α) → String → List (String × α)
  | [], _ => []
  | (k', v') :: rest, k => if k' = k then rest else (k', v') :: eraseA rest k

/-- `reflect.ValueOf(e).Elem().FieldByName(f)`: the named field's value,
or `none` when the struct has no such field (an invalid `reflect.Value`). -/
def Entity.fieldByName : Entity → String → Option Value
  | .record _ fs, f => lookupA fs f
  | .migrationVersion i v, f =>
    if f = "ID" then some (.str i)
    else if f = "Version" then some (.int v) else none

/-- `reflect.Value.String()`: the string itself for string kinds, a kind
tag for every other kind (Go never panics here). -/
def Value.goString : Value → String
  | .str s => s
  | .int _ => "<int Value>"
  | .cmp _ => "<struct Value>"

/-- `reflect.ValueOf(e).Elem().FieldByName(f).String()` for a non-nil
entity. -/
def Entity.fieldString (e : Entity) (f : String) : String :=
  match e.fieldByName f with
  | some v => v.goString
  | none => "<invalid Value>"

/-- The same reflective read applied to a possibly-nil `Entity` interface
value, as the index-maintenance loop in `Transaction.Commit` does:
`reflect.ValueOf(nil).Elem()` panics. -/
def entityFieldString : Option Entity → String → Except String String
  | some e, f => .ok (e.fieldString f)
  | none, _ => .error "reflect: call of reflect.Value.Elem on zero Value"

/-- The `Database` struct: canonical map (`data`), secondary indexes
(type, then field, then rendered value, to a list of ids), the read cache
keyed by `getCacheKey`, and the persisted file's decoded contents
(`none` models a missing file). -/
structure Database where
  data : List (String × List (String × Entity))
  indexes : List (String × List (String × List (String × List String)))
  cache : List (String × Entity)
  file : Option (List (String × List (String × Entity)))
deriving DecidableEq, Repr

/-- `getCacheKey`: `fmt.Sprintf("%s:%s", entityType, id)`. -/
def getCacheKey (entityType id : String) : String := entityType ++ ":" ++ id

/-- `NewDatabase` followed by `load`: decodes the file into the canonical
map when present (a missing file yields an empty store); the cache starts
empty and no indexes exist yet. -/
def newDatabase (file : Option (List (String × List (String × Entity)))) :
    Database :=
  { data := file.getD [], indexes := [], cache := [], file := file }

/-- Append an id to the bucket of a rendered value:
`index[value] = append(index[value], id)`. -/
def addToBucket (buckets : List (String × List String)) (value id : String) :
    List (String × List String) :=
  insertA buckets value ((lookupA buckets value).getD [] ++ [id])

/-- The scan in `Database.AddIndex`: for each current record of the type,
append its id to the bucket of its rendered field value. -/
def buildBuckets (entities : List (String × Entity)) (field : String) :
    List (String × List String) :=
  entities.foldl (fun bs p => addToBucket bs (p.2.fieldString field) p.1) []

/-- `Database.AddIndex`: installs a freshly scanned bucket map for
(entityType, field). -/
def Database.addIndex (db : Database) (entityType field : String) : Database :=
  let buckets := buildBuckets ((lookupA db.data entityType).getD []) field
  let forType := insertA ((lookupA db.indexes entityType).getD []) field buckets
  { db with indexes := insertA db.indexes entityType forType }

/-- The `Transaction` struct: the database it belongs to (in Go a
pointer, here carried as explicit state), the read-only flag, the staged
overlay (`changes`; `none` is a tombstone) and the committed flag. -/
structure TxState where
  db : Database
  readOnly : Bool
  changes : List (String × List (String × Option Entity))
  committed : Bool
deriving DecidableEq, Repr

/-- `Database.Transact`. -/
def Database.transact (db : Database) (readOnly : Bool) : TxState :=
  { db := db, readOnly := readOnly, changes := [], committed := false }

/-- A registered hook: receives the transaction, the entity type and the
entity (possibly the nil interface), mutates the transaction through its
methods and returns an optional error.  Go keeps the mutations performed
before a hook fails, so the state is returned alongside the error. -/
abbrev Hook := TxState → String → Option Entity → TxState × Option String

/-- The hook table `db.hooks`, passed explicitly (see file comment). -/
abbrev Hooks := String → List Hook

/-- A database with no registered hooks. -/
def noHooks : Hooks := fun _ => []

/-- Run a hook chain in registration order, stopping at the first
failure (later hooks in the chain do not run). -/
def runHooks : List Hook → TxState → String → Option Entity →
    TxState × Option String
  | [], s, _, _ => (s, none)
  | h :: rest, s, t, e =>
    match h s t e with
    | (s', some err) => (s', some err)
    | (s', none) => runHooks rest s' t e

/-- The store-read part of `Transaction.Get`: cache first, then the
canonical map; a canonical-map hit populates the cache before returning. -/
def TxState.getFromDb (s : TxState) (entityType id : String) :
    (Option Entity × Bool) × TxState :=
  match lookupA s.db.cache (getCacheKey entityType id) with
  | some e => ((some e, true), s)
  | none =>
    match lookupA s.db.data entityType with
    | some entities =>
      match lookupA entities id with
      | some e =>
        ((some e, true),
         { s with db := { s.db with
             cache := insertA s.db.cache (getCacheKey entityType id) e } })
      | none => ((none, false), s)
    | none => ((none, false), s)

/-- `Transaction.Get`: the overlay is consulted first and a staged entry
is returned as found even when it is a tombstone (the nil interface);
only on an overlay miss does the read fall through to cache/canonical
map. -/
def TxState.get (s : TxState) (entityType id : String) :
    (Option Entity × Bool) × TxState :=
  match lookupA s.changes entityType with
  | some changed =>
    match lookupA changed id with
    | some e => ((e, true), s)
    | none => s.getFromDb entityType id
  | none => s.getFromDb entityType id

/-- `Transaction.Set`: read-only check, pre-set hooks, staging under the
entity's id, post-set hooks. -/
def TxState.set (s : TxState) (hooks : Hooks) (entityType : String)
    (entity : Entity) : TxState × Option String :=
  if s.readOnly then (s, some "cannot modify data in a read-only transaction")
  else
    match runHooks (hooks "pre-set") s entityType (some entity) with
    | (s', some err) => (s', some err)
    | (s', none) =>
      let changed := (lookupA s'.changes entityType).getD []
      let staged := insertA s'.changes entityType
        (insertA changed entity.getID (some entity))
      let s'' := { s' with changes := staged }
      runHooks (hooks "post-set") s'' entityType (some entity)

/-- `Transaction.Delete`: read-only check; the current value is looked up
through `Get` (populating the cache on a canonical-map hit); when it
exists the pre-delete hooks run before the tombstone is staged and the
post-delete hooks after. -/
def TxState.delete (s : TxState) (hooks : Hooks) (entityType id : String) :
    TxState × Option String :=
  if s.readOnly then (s, some "cannot modify data in a read-only transaction")
  else
    match s.get entityType id with
    | ((entity, found), s1) =>
      match (if found then runHooks (hooks "pre-delete") s1 entityType entity
             else (s1, none)) with
      | (s2, some err) => (s2, some err)
      | (s2, none) =>
        let changed := (lookupA s2.changes entityType).getD []
        let staged := insertA s2.changes entityType (insertA changed id none)
        let s3 := { s2 with changes := staged }
        if found then runHooks (hooks "post-delete") s3 entityType entity
        else (s3, none)

/-- `Transaction.Rollback`: discards the overlay only. -/
def TxState.rollback (s : TxState) : TxState := { s with changes := [] }

/-- The index-maintenance loop of `Transaction.Commit` for one staged
entry: for every index of the entity's type, renders the (possibly nil)
entity's field through reflection and appends the id to that value's
bucket.  A tombstone makes the reflective read panic (`.error`). -/
def updateIndexesFor (idxs : List (String × List (String × List String)))
    (entity : Option Entity) (id : String) :
    Except String (List (String × List (String × List String))) :=
  match idxs with
  | [] => .ok []
  | (field, buckets) :: rest =>
    match entityFieldString entity field with
    | .error msg => .error msg
    | .ok value =>
      match updateIndexesFor rest entity id with
      | .error msg => .error msg
      | .ok rest' => .ok ((field, addToBucket buckets value id) :: rest')

/-- One staged (id, entity-or-tombstone) entry of `Transaction.Commit`:
a tombstone removes the id from the canonical map and invalidates its
cache entry, a record is installed in the canonical map and cached;
then the index-maintenance loop runs in both cases. -/
def commitEntity (db : Database) (entityType id : String)
    (entity : Option Entity) : Except String Database :=
  let db1 :=
    match entity with
    | none =>
      let forType := eraseA ((lookupA db.data entityType).getD []) id
      { db with data := insertA db.data entityType forType,
                cache := eraseA db.cache (getCacheKey entityType id) }
    | some e =>
      let forType := insertA ((lookupA db.data entityType).getD []) id e
      { db with data := insertA db.data entityType forType,
                cache := insertA db.cache (getCacheKey entityType id) e }
  match lookupA db1.indexes entityType with
  | none => .ok db1
  | some idxs =>
    match updateIndexesFor idxs entity id with
    | .error msg => .error msg
    | .ok idxs' => .ok { db1 with indexes := insertA db1.indexes entityType idxs' }

/-- The inner loop of `Transaction.Commit` over one entity type's staged
entries. -/
def commitTypeChanges (db : Database) (entityType : String) :
    List (String × Option Entity) → Except String Database
  | [] => .ok db
  | (id, entity) :: rest =>
    match commitEntity db entityType id entity with
    | .error msg => .error msg
    | .ok db' => commitTypeChanges db' entityType rest

/-- The outer loop of `Transaction.Commit` over the staged overlay. -/
def commitChanges (db : Database) :
    List (String × List (String × Option Entity)) → Except String Database
  | [] => .ok db
  | (entityType, entities) :: rest =>
    match commitTypeChanges db entityType entities with
    | .error msg => .error msg
    | .ok db' => commitChanges db' rest

/-- The result of an operation that can terminate the process: a Go
panic (`panicked`) or a normal return (`ret`).  A panic abandons the
store; the partially mutated in-memory state is not observable because
the process is unwinding. -/
inductive Outcome (α : Type) where
  | panicked (msg : String)
  | ret (val : α)
deriving DecidableEq, Repr

/-- `Transaction.Commit`: a read-only transaction returns nil at once;
otherwise the overlay is folded into the canonical map, cache and
indexes, the transaction is marked committed, and `save` runs last —
`saveOk` selects whether serialization/file write succeeds.  On save
failure the error is returned but the in-memory mutation and the
committed mark are already in place; the overlay is not cleared in any
case. -/
def TxState.commit (s : TxState) (saveOk : Bool) :
    Outcome (TxState × Option String) :=
  if s.readOnly then .ret (s, none)
  else
    match commitChanges s.db s.changes with
    | .error msg => .panicked msg
    | .ok db' =>
      let s' := { s with db := db', committed := true }
      if saveOk then
        .ret ({ s' with db := { db' with file := some db'.data } }, none)
      else .ret (s', some "failed to write database file")

/-- The tombstone merge step of `Transaction.GetAll`: removes the first
entity whose id matches. -/
def removeFirstById : List Entity → String → List Entity
  | [], _ => []
  | e :: rest, id =>
    if e.getID = id then rest else e :: removeFirstById rest id

/-- The staged-record merge step of `Transaction.GetAll`: replaces the
first entity whose id matches, appending when none does. -/
def replaceOrAppend : List Entity → String → Entity → List Entity
  | [], _, e' => [e']
  | e :: rest, id, e' =>
    if e.getID = id then e' :: rest else e :: replaceOrAppend rest id e'

/-- The overlay merge of `Transaction.GetAll` over the staged entries of
one type. -/
def applyChanges (es : List Entity) :
    List (String × Option Entity) → List Entity
  | [] => es
  | (id, none) :: rest => applyChanges (removeFirstById es id) rest
  | (id, some e) :: rest => applyChanges (replaceOrAppend es id e) rest

/-- `Transaction.GetAll`: the canonical records of the type merged with
the overlay (tombstones excluded, staged records overriding or
augmenting); no cache involvement and no mutation. -/
def TxState.getAll (s : TxState) (entityType : String) : List Entity :=
  let entities := ((lookupA s.db.data entityType).getD []).map (·.2)
  match lookupA s.changes entityType with
  | some changed => applyChanges entities changed
  | none => entities

/-- A query filter predicate, as closed over by `Where`, `WhereIn` and
`WhereLike`. -/
inductive Filter where
  | whereEq (field : String) (value : Value)
  | whereIn (field : String) (values : List Value)
  | whereLike (field : String) (sub : String)
deriving DecidableEq, Repr

/-- Case-sensitive substring containment, `strings.Contains`. -/
def strContains (s sub : String) : Bool :=
  decide (sub.toList <:+: s.toList)

/-- Evaluate one filter closure on an entity.  `Where`/`WhereIn` call
`FieldByName(field).Interface()`, which panics (`.error`) on a struct
without that field; interface equality compares type and value, so
values of different kinds are unequal.  `WhereLike` uses
`FieldByName(field).String()`, which never panics. -/
def evalFilter (f : Filter) (e : Entity) : Except String Bool :=
  match f with
  | .whereEq field v =>
    match e.fieldByName field with
    | none => .error "reflect: call of reflect.Value.Interface on zero Value"
    | some fv => .ok (fv = v)
  | .whereIn field vs =>
    match e.fieldByName field with
    | none => .error "reflect: call of reflect.Value.Interface on zero Value"
    | some fv => .ok (vs.contains fv)
  | .whereLike field sub => .ok (strContains (e.fieldString field) sub)

/-- The AND chain over a query's filters for one entity, in registration
order with short-circuit, as in `Query.Execute`. -/
def matchesAll : List Filter → Entity → Except String Bool
  | [], _ => .ok true
  | f :: rest, e =>
    match evalFilter f e with
    | .error msg => .error msg
    | .ok false => .ok false
    | .ok true => matchesAll rest e

/-- The filtering pass of `Query.Execute`, keeping entities in `GetAll`
order. -/
def filterEntities (filters : List Filter) :
    List Entity → Except String (List Entity)
  | [] => .ok []
  | e :: rest =>
    match matchesAll filters e with
    | .error msg => .error msg
    | .ok b =>
      match filterEntities filters rest with
      | .error msg => .error msg
      | .ok rest' => .ok (if b then e :: rest' else rest')

/-- The `less` closure handed to `sort.Slice` by `Query.Execute`: reads
both entities' order field, asserts the left value to the `Comparable`
interface (panicking when the field is absent or its type does not
implement `Comparable`), then the right one, and compares.  Descending
order uses `Compare > 0`, ascending `Compare < 0`. -/
def sortLess (field : String) (desc : Bool) (a b : Entity) :
    Except String Bool :=
  match a.fieldByName field with
  | none => .error "reflect: call of reflect.Value.Interface on zero Value"
  | some va =>
    match va with
    | .cmp x =>
      match b.fieldByName field with
      | none => .error "reflect: call of reflect.Value.Interface on zero Value"
      | some (.cmp y) => .ok (if desc then decide (y < x) else decide (x < y))
      | some _ => .error "interface conversion: value does not implement flexdb.Comparable"
    | _ => .error "interface conversion: value does not implement flexdb.Comparable"

/-- Sorted insertion driven by a fallible `less`: the element goes before
the first list element it is strictly less than. -/
def insertSorted (less : Entity → Entity → Except String Bool) (e : Entity) :
    List Entity → Except String (List Entity)
  | [] => .ok [e]
  | x :: xs =>
    match less e x with
    | .error msg => .error msg
    | .ok true => .ok (e :: x :: xs)
    | .ok false =>
      match insertSorted less e xs with
      | .error msg => .error msg
      | .ok xs' => .ok (x :: xs')

/-- The sort performed by `sort.Slice` in `Query.Execute`, modelled as an
insertion sort with the same `less` closure (Go's `sort.Slice` uses
insertion sort on slices this small and does not promise stability in
general); a list with fewer than two elements involves no comparison, so
an uncomparable value in it goes unnoticed, and the first comparison
touching an uncomparable value panics (`.error`). -/
def sortEntities (less : Entity → Entity → Except String Bool) :
    List Entity → Except String (List Entity)
  | [] => .ok []
  | e :: rest =>
    match sortEntities less rest with
    | .error msg => .error msg
    | .ok rest' => insertSorted less e rest'

/-- The `Query` struct; `Where`/`WhereIn`/`WhereLike`/`Limit`/`Offset`/
`OrderBy` only populate these fields, modelled below as record updates. -/
structure Query where
  entityType : String
  filters : List Filter := []
  limit : Int := 0
  offset : Int := 0
  orderBy : String := ""
  orderDesc : Bool := false
deriving DecidableEq, Repr

/-- `Transaction.NewQuery`. -/
def newQuery (entityType : String) : Query := { entityType := entityType }

/-- `Query.Where`. -/
def Query.whereField (q : Query) (field : String) (value : Value) : Query :=
  { q with filters := q.filters ++ [.whereEq field value] }

/-- `Query.WhereLike`. -/
def Query.whereLikeField (q : Query) (field sub : String) : Query :=
  { q with filters := q.filters ++ [.whereLike field sub] }

/-- `Query.OrderBy`. -/
def Query.withOrderBy (q : Query) (field : String) (desc : Bool) : Query :=
  { q with orderBy := field, orderDesc := desc }

/-- `Query.Execute`: filters over the transaction's merged view, then the
optional sort, then offset (returning empty when past the end), then
limit.  The declared error return is always nil in the source; every
failure surfaces as a panic. -/
def Query.execute (q : Query) (s : TxState) :
    Outcome (List Entity × Option String) :=
  let entities := s.getAll q.entityType
  match filterEntities q.filters entities with
  | .error msg => .panicked msg
  | .ok results =>
    match (if q.orderBy = "" then .ok results
           else sortEntities (sortLess q.orderBy q.orderDesc) results) with
    | .error msg => .panicked msg
    | .ok sorted =>
      if q.offset > 0 ∧ q.offset ≥ (sorted.length : Int) then .ret ([], none)
      else
        let afterOffset := if q.offset > 0 then sorted.drop q.offset.toNat else sorted
        let afterLimit :=
          if q.limit > 0 ∧ q.limit < (afterOffset.length : Int) then
            afterOffset.take q.limit.toNat
          else afterOffset
        .ret (afterLimit, none)

/-- `getCurrentVersion`: reads the version-marker record through the
transaction; absent means version 0; a marker that is not a
`MigrationVersion` (including a staged tombstone, which `Get` reports as
found with a nil entity) is an error. -/
def getCurrentVersion (s : TxState) : Except String Int × TxState :=
  match s.get "migration" "current_version" with
  | ((entity, found), s') =>
    if found then
      match entity with
      | some (.migrationVersion _ v) => (.ok v, s')
      | _ => (.error "invalid entity type for migration version", s')
    else (.ok 0, s')

/-- `setCurrentVersion`: stages the singleton marker record. -/
def setCurrentVersion (s : TxState) (hooks : Hooks) (version : Int) :
    TxState × Option String :=
  s.set hooks "migration" (.migrationVersion "current_version" version)

/-- A registered migration: version plus up/down callbacks acting on the
transaction. -/
structure Migration where
  version : Int
  up : TxState → TxState × Option String
  down : TxState → TxState × Option String

/-- The loop of `Database.Migrate` over the registered migrations, in
registration order: each one whose version lies in
(currentVersion, target] has its up-function invoked and the marker
staged with its version; the first failure stops the run.  The current
version is the one read once before the loop. -/
def runMigrations (hooks : Hooks) (target cur : Int) :
    List Migration → TxState → TxState × Option String
  | [], s => (s, none)
  | m :: rest, s =>
    if cur < m.version ∧ m.version ≤ target then
      match m.up s with
      | (s', some err) => (s', some err)
      | (s', none) =>
        match setCurrentVersion s' hooks m.version with
        | (s'', some err) => (s'', some err)
        | (s'', none) => runMigrations hooks target cur rest s''
    else runMigrations hooks target cur rest s

/-- `Database.Migrate`: opens one write transaction, reads the marker,
runs the loop, and commits once at the end; any earlier failure returns
without committing (the deferred `Rollback` only clears the dead
transaction's overlay).  The database reached through the transaction is
returned alongside the error, as the caller's `db` has been mutated
through the transaction pointer. -/
def migrate (hooks : Hooks) (migrations : List Migration) (saveOk : Bool)
    (db : Database) (targetVersion : Int) : Outcome (Database × Option String) :=
  let tx := db.transact false
  match getCurrentVersion tx with
  | (.error err, s) => .ret (s.db, some err)
  | (.ok cur, s) =>
    match runMigrations hooks targetVersion cur migrations s with
    | (s', some err) => .ret (s'.db, some err)
    | (s', none) =>
      match s'.commit saveOk with
      | .panicked msg => .panicked msg
      | .ret (s'', err) => .ret (s''.db, err)

/-! ### Derived notions used to state the claims -/

/-- The overlay entry staged for (type, id): `some none` is a staged
tombstone, `some (some e)` a staged record, `none` no staged entry. -/
def changesLookup (changes : List (String × List (String × Option Entity)))
    (entityType id : String) : Option (Option Entity) :=
  (lookupA changes entityType).bind fun m => lookupA m id

/-- The canonical-map entry for (type, id). -/
def dataLookup (db : Database) (entityType id : String) : Option Entity :=
  (lookupA db.data entityType).bind fun m => lookupA m id

/-- The entity type has at least one registered index. -/
def hasNonemptyIndex (db : Database) (entityType : String) : Prop :=
  ∃ idxs, lookupA db.indexes entityType = some idxs ∧ idxs ≠ []

/-- Every staged entry whose cache key collides with `getCacheKey t i`
stages exactly the record `e` (in particular: no distinct staged
(type, id) pair shares that cache key).  `getCacheKey` concatenates with
":", so distinct pairs can collide. -/
def keyMapsTo (t i : String) (e : Entity)
    (changes : List (String × List (String × Option Entity))) : Prop :=
  ∀ p ∈ changes, ∀ q ∈ p.2,
    getCacheKey p.1 q.1 = getCacheKey t i → q.2 = some e

/-- The store components a commit persists: canonical map, indexes and
file (the read cache is deliberately excluded — reads repopulate it). -/
def storeUnchanged (a b : Database) : Prop :=
  b.data = a.data ∧ b.indexes = a.indexes ∧ b.file = a.file

/-- Every up-function of the list only stages changes through the
transaction (it may read, populating the cache, but leaves canonical
map, indexes and file untouched). -/
def stageOnly (migs : List Migration) : Prop :=
  ∀ m ∈ migs, ∀ s : TxState, storeUnchanged s.db (m.up s).1.db

/-- Extract the post-state of a commit outcome (default on panic). -/
def commitResState (o : Outcome (TxState × Option String)) (dflt : TxState) :
    TxState :=
  match o with
  | .ret (s, _) => s
  | .panicked _ => dflt

/-- Extract the database of a migrate outcome (default on panic). -/
def migrateResultDb (o : Outcome (Database × Option String)) (dflt : Database) :
    Database :=
  match o with
  | .ret (d, _) => d
  | .panicked _ => dflt

/-- A staged operation of a transaction body (with no hooks registered). -/
inductive Op where
  | setOp (entityType : String) (e : Entity)
  | delOp (entityType id : String)

/-- Run a sequence of Set/Delete calls on a transaction (no hooks
registered); staging never fails on a write transaction, and the states
are threaded as Go mutates the transaction in place. -/
def applyOps : List Op → TxState → TxState
  | [], s => s
  | .setOp t e :: rest, s => applyOps rest (s.set noHooks t e).1
  | .delOp t i :: rest, s => applyOps rest (s.delete noHooks t i).1

/-! ### Concrete scenarios used by the claims -/

/-- An empty store with an index registered on ("test", "Name"). -/
def demoIdxDb : Database := (newDatabase none).addIndex "test" "Name"

/-- A record with id "1" and string field Name = "a". -/
def demoRecA : Entity := .record "1" [("Name", .str "a")]

/-- The same id with Name changed to "b". -/
def demoRecB : Entity := .record "1" [("Name", .str "b")]

/-- A write transaction that staged `demoRecA`. -/
def demoTx1 : TxState := ((demoIdxDb.transact false).set noHooks "test" demoRecA).1

/-- The transaction after its first successful commit. -/
def demoTx1c : TxState := commitResState (demoTx1.commit true) demoTx1

/-- The store after committing `demoRecA`. -/
def demoDb1 : Database := demoTx1c.db

/-- A second transaction over `demoDb1` staging the updated `demoRecB`. -/
def demoTx2 : TxState := ((demoDb1.transact false).set noHooks "test" demoRecB).1

/-- The store after the second commit. -/
def demoDb2 : Database := (commitResState (demoTx2.commit true) demoTx2).db

/-- A store as produced by `NewDatabase` on an existing file: canonical
map loaded, cache empty. -/
def demoLoadedDb : Database :=
  newDatabase (some [("test", [("1", .record "1" [("Name", .str "x")])])])

/-- A write transaction over the loaded store that staged a tombstone
for the existing record. -/
def demoTombTx : TxState :=
  ((demoLoadedDb.transact false).delete noHooks "test" "1").1

/-- The same, over the loaded store with an index on ("test", "Name"). -/
def demoTombIdxTx : TxState :=
  (((demoLoadedDb.addIndex "test" "Name").transact false).delete noHooks "test" "1").1

/-- A transaction staging two records of distinct types whose cache keys
collide: ("a", "b:c") and ("a:b", "c") both key "a:b:c". -/
def demoCollTx : TxState :=
  ((((newDatabase none).transact false).set noHooks "a"
      (.record "b:c" [("V", .str "X")])).1.set noHooks "a:b"
      (.record "c" [("V", .str "Y")])).1

/-- The store after committing the colliding pair. -/
def demoCollDb : Database := (commitResState (demoCollTx.commit true) demoCollTx).db

/-- A migration whose up-function stages the record ("log", "x") with
field V set to `val`. -/
def demoUpMig (v : Int) (val : String) : Migration :=
  { version := v,
    up := fun s => s.set noHooks "log" (.record "x" [("V", .str val)]),
    down := fun s => (s, none) }

/-- Two migrations registered in descending version order. -/
def demoMigsBad : List Migration := [demoUpMig 2 "2", demoUpMig 1 "1"]

/-- The store after `Migrate(2)` over the descending registration. -/
def demoBadDb1 : Database :=
  migrateResultDb (migrate noHooks demoMigsBad true (newDatabase none) 2)
    (newDatabase none)

/-- The store after a second `Migrate(2)` over the same registration. -/
def demoBadDb2 : Database :=
  migrateResultDb (migrate noHooks demoMigsBad true demoBadDb1 2) demoBadDb1

/-- A migration whose up-function fails immediately. -/
def demoFailMig : Migration :=
  { version := 1, up := fun s => (s, some "boom"), down := fun s => (s, none) }

/-- A single ascending migration registration. -/
def demoGoodMigs : List Migration := [demoUpMig 1 "1"]

/-- The store after `Migrate(1)` over the ascending registration. -/
def demoGoodDb1 : Database :=
  migrateResultDb (migrate noHooks demoGoodMigs true (newDatabase none) 1)
    (newDatabase none)

/-- A store holding two records whose Name fields are plain strings
(strings do not implement the `Comparable` interface). -/
def demoQueryDb : Database :=
  newDatabase (some [("test",
    [("1", .record "1" [("Name", .str "b")]),
     ("2", .record "2" [("Name", .str "a")])])])

/-- The same with a single record. -/
def demoQueryDb1 : Database :=
  newDatabase (some [("test", [("1", .record "1" [("Name", .str "b")])])])

/-- A query ordering by the plain-string Name field. -/
def demoQuery : Query := (newQuery "test").withOrderBy "Name" false

/-! ### Association-list lemmas -/

theorem lookupA_insertA {α : Type} (m : List (String × α)) (k k' : String)
    (v : α) :
    lookupA (insertA m k v) k' = if k = k' then some v else lookupA m k' := by
  induction m with
  | nil => simp [insertA, lookupA]
  | cons p rest ih =>
    obtain ⟨a, b⟩ := p
    by_cases hak : a = k
    · subst hak
      simp only [insertA, if_pos rfl, lookupA]
      by_cases hak' : a = k' <;> simp [hak']
    · by_cases hak' : a = k'
      · subst hak'
        have hkk' : ¬ k = a := fun h => hak h.symm
        simp [insertA, hak, lookupA, hkk']
      · simp [insertA, hak, lookupA, hak', ih]

theorem lookupA_eraseA_ne {α : Type} (m : List (String × α)) {k k' : String}
    (h : ¬ k = k') :
    lookupA (eraseA m k) k' = lookupA m k' := by
  induction m with
  | nil => simp [eraseA]
  | cons p rest ih =>
    obtain ⟨a, b⟩ := p
    by_cases hak : a = k
    · subst hak
      have : ¬ a = k' := h
      simp [eraseA, lookupA, this]
    · by_cases hak' : a = k'
      · subst hak'
        have hne : ¬ a = k := hak
        have hne' : ¬ k = a := fun hh => hak hh.symm
        simp [eraseA, hne, lookupA]
      · simp [eraseA, hak, lookupA, hak', ih]

theorem mem_of_lookupA {α : Type} {m : List (String × α)} {k : String}
    {v : α} (h : lookupA m k = some v) : (k, v) ∈ m := by
  induction m with
  | nil => simp [lookupA] at h
  | cons p rest ih =>
    obtain ⟨a, b⟩ := p
    by_cases hak : a = k
    · subst hak
      simp [lookupA] at h
      simp [h]
    · simp [lookupA, hak] at h
      exact List.mem_cons_of_mem _ (ih h)

/-! ### C1 -/

/-- C1 (code bug): the index-consistency invariant fails.  Committing
the record id "1" with Name "a" and then, in a second transaction,
committing the same id with Name changed to "b" leaves id "1" both in
the stale bucket "a" and in the bucket "b" of the ("test", "Name")
index, although the canonical record's Name is "b": `Commit` appends to
the new value's bucket without ever removing the id from the old one. -/
theorem commit_leaves_stale_and_duplicate_index_entries :
    demoDb2.indexes = [("test", [("Name", [("a", ["1"]), ("b", ["1"])])])] ∧
    dataLookup demoDb2 "test" "1" = some demoRecB := by
  constructor <;> rfl

/-! ### C2 -/

/-- C2 (code bug): `Transaction.Get` on a staged tombstone reports the
entity as found (with the nil interface as the entity) instead of "not
found": the overlay branch returns whatever is staged together with
`true`.  `demoTombTx` staged a delete of ("test", "1"), which exists in
the canonical map. -/
theorem get_on_staged_tombstone_reports_found :
    (demoTombTx.get "test" "1").1 = ((none : Option Entity), true) ∧
    changesLookup demoTombTx.changes "test" "1" = some none := by
  constructor <;> rfl

/-! ### C3 -/

/-- C3 (code bug): when the file write fails during `Commit`, the
transaction has already been marked committed and the canonical map and
cache already contain the staged record; only the persisted file is left
unchanged.  The code mutates in place and sets `committed` before
calling `save`, with no compensation on failure. -/
theorem commit_persistence_failure_still_applies_changes :
    demoTx1.commit false =
      .ret (commitResState (demoTx1.commit false) demoTx1,
            some "failed to write database file") ∧
    (commitResState (demoTx1.commit false) demoTx1).committed = true ∧
    dataLookup (commitResState (demoTx1.commit false) demoTx1).db "test" "1" =
      some demoRecA ∧
    lookupA (commitResState (demoTx1.commit false) demoTx1).db.cache
      (getCacheKey "test" "1") = some demoRecA := by
  refine ⟨rfl, rfl, rfl, rfl⟩

/-! ### C4 -/

/-- C4 (code bug): a second `Commit` on an already committed transaction
is neither rejected nor a no-op: it returns nil and re-applies the
overlay, appending the id to the index bucket a second time (bucket "a"
goes from ["1"] to ["1", "1"]).  `Commit` never consults the
`committed` flag. -/
theorem second_commit_appends_index_entries_again :
    demoTx1c.committed = true ∧
    demoTx1c.db.indexes = [("test", [("Name", [("a", ["1"])])])] ∧
    demoTx1c.commit true =
      .ret (commitResState (demoTx1c.commit true) demoTx1c, none) ∧
    (commitResState (demoTx1c.commit true) demoTx1c).db.indexes =
      [("test", [("Name", [("a", ["1", "1"])])])] := by
  refine ⟨rfl, rfl, rfl, rfl⟩

/-! ### C9 -/

/-- C9 (code bug): `Execute` with `OrderBy` on a field whose values are
plain strings (no `Comparable` implementation) does not return a query
failure: with two filtered results the first comparison panics through
the unchecked `Comparable` type assertion, and with a single result no
comparison runs and `Execute` silently succeeds with a nil error. -/
theorem orderBy_without_comparable_panics :
    demoQuery.execute (demoQueryDb.transact true) =
      .panicked "interface conversion: value does not implement flexdb.Comparable" ∧
    demoQuery.execute (demoQueryDb1.transact true) =
      .ret ([.record "1" [("Name", .str "b")]], none) := by
  constructor <;> rfl

/-! ### C6 counterexample -/

/-- C6 (counterexample): read-your-committed-writes fails under a cache
key collision.  `demoCollTx` set ("a", "b:c") to the record with V = "X"
and ("a:b", "c") to the record with V = "Y"; both cache under the key
"a:b:c", and after the successful commit a fresh transaction's Get for
("a", "b:c") answers from the cache with the record of the OTHER pair —
not field-equal to what was set under ("a", "b:c"). -/
theorem committed_set_shadowed_by_cache_key_collision :
    demoCollTx.commit true =
      .ret (commitResState (demoCollTx.commit true) demoCollTx, none) ∧
    changesLookup demoCollTx.changes "a" "b:c" =
      some (some (.record "b:c" [("V", .str "X")])) ∧
    ((demoCollDb.transact true).get "a" "b:c").1 =
      (some (.record "c" [("V", .str "Y")]), true) ∧
    (Entity.record "c" [("V", .str "Y")]) ≠ .record "b:c" [("V", .str "X")] := by
  refine ⟨rfl, rfl, rfl, by decide⟩

/-! ### C7 counterexample -/

/-- C7 (counterexample): `Migrate` applies migrations in registration
order, not ascending version order.  With `demoMigsBad` (version 2
registered before version 1, both up-functions writing their version
into ("log", "x")) and target 2, starting from version 0: ascending
order would run v1 then v2, leaving V = "2" and marker version 2; the
code runs v2 then v1, leaving V = "1" and marker version 1. -/
theorem migrate_applies_in_registration_not_version_order :
    migrate noHooks demoMigsBad true (newDatabase none) 2 =
      .ret (demoBadDb1, none) ∧
    dataLookup demoBadDb1 "migration" "current_version" =
      some (.migrationVersion "current_version" 1) ∧
    dataLookup demoBadDb1 "log" "x" = some (.record "x" [("V", .str "1")]) := by
  refine ⟨rfl, rfl, rfl⟩

/-! ### C8 counterexample -/

/-- C8 (counterexample): `Migrate` twice with the same target is not
idempotent for every registration order.  After the first Migrate(2)
over `demoMigsBad` left the marker at version 1, the second Migrate(2)
selects version 2 again (1 < 2 ≤ 2): it re-invokes its up-function
(V becomes "2") and moves the version marker from 1 to 2 — a further
mutation of records and marker. -/
theorem migrate_twice_reruns_out_of_order_migration :
    migrate noHooks demoMigsBad true demoBadDb1 2 = .ret (demoBadDb2, none) ∧
    dataLookup demoBadDb1 "migration" "current_version" =
      some (.migrationVersion "current_version" 1) ∧
    dataLookup demoBadDb2 "migration" "current_version" =
      some (.migrationVersion "current_version" 2) ∧
    dataLookup demoBadDb2 "log" "x" = some (.record "x" [("V", .str "2")]) := by
  refine ⟨rfl, rfl, rfl, rfl⟩

/-! ### C10 counterexample -/

/-- C10 (counterexample): the rollback frame property fails for the
cache.  On a freshly loaded store (empty cache), staging a Delete looks
the record up through Get, which populates the cache; Rollback only
clears the overlay, so the cache still holds the entry afterwards —
the store's cache is not unchanged from before the transaction. -/
theorem staged_delete_then_rollback_populates_cache :
    demoTombTx.rollback.changes = [] ∧
    demoLoadedDb.cache = [] ∧
    demoTombTx.rollback.db.cache =
      [(getCacheKey "test" "1", .record "1" [("Name", .str "x")])] := by
  refine ⟨rfl, rfl, rfl⟩

/-! ### C5: commit panics on a tombstone of an indexed type -/

theorem updateIndexesFor_length (e : Option Entity) (id : String) :
    ∀ (idxs : List (String × List (String × List String))) idxs',
      updateIndexesFor idxs e id = .ok idxs' → idxs'.length = idxs.length := by
  intro idxs
  induction idxs with
  | nil =>
    intro idxs' h
    simp [updateIndexesFor] at h
    simp [← h]
  | cons p rest ih =>
    obtain ⟨f, b⟩ := p
    intro idxs' h
    unfold updateIndexesFor at h
    cases hef : entityFieldString e f with
    | error msg => rw [hef] at h; simp at h
    | ok v =>
      rw [hef] at h
      cases hrec : updateIndexesFor rest e id with
      | error msg => rw [hrec] at h; simp at h
      | ok rest' =>
        rw [hrec] at h
        simp only [Except.ok.injEq] at h
        subst h
        simp [ih rest' hrec]

theorem updateIndexesFor_tombstone (f : String)
    (b : List (String × List String))
    (rest : List (String × List (String × List String))) (id : String) :
    updateIndexesFor ((f, b) :: rest) none id =
      .error "reflect: call of reflect.Value.Elem on zero Value" := rfl

theorem commitEntity_indexes {db : Database} {t' i : String}
    {e : Option Entity} {db' : Database}
    (h : commitEntity db t' i e = .ok db') :
    db'.indexes = db.indexes ∨
      ∃ idxs idxs', lookupA db.indexes t' = some idxs ∧
        updateIndexesFor idxs e i = .ok idxs' ∧
        idxs'.length = idxs.length ∧
        db'.indexes = insertA db.indexes t' idxs' := by
  cases e with
  | none =>
    unfold commitEntity at h
    simp only at h
    split at h
    · simp only [Except.ok.injEq] at h
      subst h
      exact Or.inl rfl
    · rename_i idxs hl
      split at h
      · simp at h
      · rename_i idxs' hu
        simp only [Except.ok.injEq] at h
        subst h
        exact Or.inr ⟨idxs, idxs', hl, hu,
          updateIndexesFor_length none i idxs idxs' hu, rfl⟩
  | some en =>
    unfold commitEntity at h
    simp only at h
    split at h
    · simp only [Except.ok.injEq] at h
      subst h
      exact Or.inl rfl
    · rename_i idxs hl
      split at h
      · simp at h
      · rename_i idxs' hu
        simp only [Except.ok.injEq] at h
        subst h
        exact Or.inr ⟨idxs, idxs', hl, hu,
          updateIndexesFor_length (some en) i idxs idxs' hu, rfl⟩

theorem commitEntity_preserves_index {db : Database} {t t' i : String}
    {e : Option Entity} {db' : Database}
    (hp : hasNonemptyIndex db t) (h : commitEntity db t' i e = .ok db') :
    hasNonemptyIndex db' t := by
  obtain ⟨idxs, hl, hne⟩ := hp
  rcases commitEntity_indexes h with heq | ⟨idxsM, idxs', hlM, hu, hlen, heq⟩
  · exact ⟨idxs, by rw [heq, hl], hne⟩
  · by_cases ht : t' = t
    · subst ht
      rw [hl] at hlM
      obtain rfl : idxs = idxsM := by injection hlM
      refine ⟨idxs', ?_, ?_⟩
      · rw [heq, lookupA_insertA]
        simp
      · intro hnil
        rw [hnil] at hlen
        simp at hlen
        exact hne (List.length_eq_zero.mp hlen.symm)
    · refine ⟨idxs, ?_, hne⟩
      rw [heq, lookupA_insertA, if_neg ht, hl]

theorem commitEntity_tombstone_error {db : Database} {t i : String}
    (hp : hasNonemptyIndex db t) :
    ∃ msg, commitEntity db t i none = .error msg := by
  obtain ⟨idxs, hl, hne⟩ := hp
  cases idxs with
  | nil => exact absurd rfl hne
  | cons p tl =>
    obtain ⟨f, b⟩ := p
    refine ⟨"reflect: call of reflect.Value.Elem on zero Value", ?_⟩
    unfold commitEntity
    simp only
    rw [hl]
    simp [updateIndexesFor_tombstone]

theorem commitTypeChanges_preserves_index {t t' : String} :
    ∀ {es : List (String × Option Entity)} {db db' : Database},
      hasNonemptyIndex db t → commitTypeChanges db t' es = .ok db' →
      hasNonemptyIndex db' t := by
  intro es
  induction es with
  | nil =>
    intro db db' hp h
    simp [commitTypeChanges] at h
    rw [← h]
    exact hp
  | cons p rest ih =>
    obtain ⟨j, ej⟩ := p
    intro db db' hp h
    unfold commitTypeChanges at h
    cases hce : commitEntity db t' j ej with
    | error msg => rw [hce] at h; simp at h
    | ok db2 =>
      rw [hce] at h
      exact ih (commitEntity_preserves_index hp hce) h

theorem commitTypeChanges_error {t i : String} :
    ∀ {es : List (String × Option Entity)} {db : Database},
      hasNonemptyIndex db t → (i, (none : Option Entity)) ∈ es →
      ∃ msg, commitTypeChanges db t es = .error msg := by
  intro es
  induction es with
  | nil => intro db _ hm; simp at hm
  | cons p rest ih =>
    obtain ⟨j, ej⟩ := p
    intro db hp hm
    cases hce : commitEntity db t j ej with
    | error msg =>
      exact ⟨msg, by unfold commitTypeChanges; rw [hce]⟩
    | ok db2 =>
      rcases List.mem_cons.mp hm with heq | hmem
      · obtain ⟨rfl, rfl⟩ : i = j ∧ (none : Option Entity) = ej := by
          injection heq with h1 h2
          exact ⟨h1, h2⟩
        obtain ⟨msg, hmsg⟩ := commitEntity_tombstone_error (i := i) hp
        rw [hmsg] at hce
        simp at hce
      · obtain ⟨msg, hmsg⟩ := ih (commitEntity_preserves_index hp hce) hmem
        exact ⟨msg, by unfold commitTypeChanges; rw [hce]; exact hmsg⟩

theorem commitChanges_error {t i : String}
    {m : List (String × Option Entity)} :
    ∀ {changes : List (String × List (String × Option Entity))}
      {db : Database},
      hasNonemptyIndex db t → (t, m) ∈ changes →
      (i, (none : Option Entity)) ∈ m →
      ∃ msg, commitChanges db changes = .error msg := by
  intro changes
  induction changes with
  | nil => intro db _ hm _; simp at hm
  | cons p rest ih =>
    obtain ⟨t0, m0⟩ := p
    intro db hp hmem hmi
    rcases List.mem_cons.mp hmem with heq | hmem'
    · obtain ⟨rfl, rfl⟩ : t = t0 ∧ m = m0 := by
        injection heq with h1 h2
        exact ⟨h1, h2⟩
      obtain ⟨msg, hmsg⟩ := commitTypeChanges_error hp hmi
      exact ⟨msg, by unfold commitChanges; rw [hmsg]⟩
    · cases hct : commitTypeChanges db t0 m0 with
      | error msg => exact ⟨msg, by unfold commitChanges; rw [hct]⟩
      | ok db2 =>
        obtain ⟨msg, hmsg⟩ :=
          ih (commitTypeChanges_preserves_index hp hct) hmem' hmi
        exact ⟨msg, by unfold commitChanges; rw [hct]; exact hmsg⟩

/-- C5: for every write transaction whose overlay stages a tombstone for
some id of an entity type having at least one registered index, `Commit`
panics: the index-maintenance loop calls
`reflect.ValueOf(entity).Elem()` on the nil staged entity instead of
skipping or removing index entries for deletes. -/
theorem commit_panics_on_tombstone_with_registered_index
    (saveOk : Bool) (s : TxState) (t i : String)
    (hro : s.readOnly = false)
    (hcl : changesLookup s.changes t i = some none)
    (hidx : hasNonemptyIndex s.db t) :
    ∃ msg, s.commit saveOk = .panicked msg := by
  obtain ⟨m, hm1, hm2⟩ : ∃ m, lookupA s.changes t = some m ∧
      lookupA m i = some none := by
    unfold changesLookup at hcl
    cases hl : lookupA s.changes t with
    | none => rw [hl] at hcl; simp at hcl
    | some m => rw [hl] at hcl; exact ⟨m, rfl, by simpa using hcl⟩
  obtain ⟨msg, hmsg⟩ :=
    commitChanges_error hidx (mem_of_lookupA hm1) (mem_of_lookupA hm2)
  exact ⟨msg, by simp [TxState.commit, hro, hmsg]⟩

/-- C5 witness: the loaded store with an index on ("test", "Name") and a
staged delete of the existing record ("test", "1"): Commit panics. -/
theorem commit_panics_on_tombstone_witness :
    ∃ msg, demoTombIdxTx.commit true = .panicked msg :=
  commit_panics_on_tombstone_with_registered_index true demoTombIdxTx
    "test" "1" rfl rfl ⟨[("Name", [("x", ["1"])])], rfl, by decide⟩

/-! ### Store-preservation lemmas for staging operations -/

theorem storeUnchanged_refl (db : Database) : storeUnchanged db db :=
  ⟨rfl, rfl, rfl⟩

theorem storeUnchanged_trans {a b c : Database}
    (h1 : storeUnchanged a b) (h2 : storeUnchanged b c) :
    storeUnchanged a c :=
  ⟨h2.1.trans h1.1, h2.2.1.trans h1.2.1, h2.2.2.trans h1.2.2⟩

theorem set_noHooks_db (s : TxState) (t : String) (e : Entity) :
    ((s.set noHooks t e).1).db = s.db := by
  unfold TxState.set
  by_cases hro : s.readOnly = true
  · simp [hro]
  · simp [hro, noHooks, runHooks]

theorem getFromDb_store (s : TxState) (t i : String) :
    storeUnchanged s.db ((s.getFromDb t i).2).db := by
  cases hl : lookupA s.db.cache (getCacheKey t i) with
  | some e => simp [TxState.getFromDb, hl, storeUnchanged]
  | none =>
    cases hd : lookupA s.db.data t with
    | none => simp [TxState.getFromDb, hl, hd, storeUnchanged]
    | some entities =>
      cases he : lookupA entities i with
      | none => simp [TxState.getFromDb, hl, hd, he, storeUnchanged]
      | some e => simp [TxState.getFromDb, hl, hd, he, storeUnchanged]

theorem get_store (s : TxState) (t i : String) :
    storeUnchanged s.db ((s.get t i).2).db := by
  unfold TxState.get
  cases hc : lookupA s.changes t with
  | none => exact getFromDb_store s t i
  | some changed =>
    show storeUnchanged s.db
      ((match lookupA changed i with
        | some e => ((e, true), s)
        | none => s.getFromDb t i)).2.db
    cases hi : lookupA changed i with
    | none => exact getFromDb_store s t i
    | some e => exact storeUnchanged_refl _

theorem delete_noHooks_store (s : TxState) (t i : String) :
    storeUnchanged s.db ((s.delete noHooks t i).1).db := by
  unfold TxState.delete
  by_cases hro : s.readOnly = true
  · simp [hro, storeUnchanged_refl]
  · rcases hg : s.get t i with ⟨⟨entity, found⟩, s1⟩
    have h1 : storeUnchanged s.db s1.db := by
      have := get_store s t i
      rw [hg] at this
      exact this
    rw [if_neg hro]
    cases found with
    | false => exact h1
    | true => exact h1

theorem applyOps_store (ops : List Op) :
    ∀ s : TxState, storeUnchanged s.db (applyOps ops s).db := by
  induction ops with
  | nil => intro s; exact storeUnchanged_refl _
  | cons op rest ih =>
    intro s
    cases op with
    | setOp t e =>
      refine storeUnchanged_trans ?_ (ih ((s.set noHooks t e).1))
      rw [set_noHooks_db]
      exact storeUnchanged_refl _
    | delOp t i =>
      exact storeUnchanged_trans (delete_noHooks_store s t i)
        (ih ((s.delete noHooks t i).1))

/-- C10 (amended): for every sequence of Set/Delete calls staged on a
write transaction with no hooks registered and then followed by
Rollback, the store's canonical map, indexes and persisted file are
unchanged from before the transaction began, and the overlay is cleared;
the read cache, however, may have gained entries for already-committed
records (Delete's existence check reads through Get, which populates the
cache — see the counterexample). -/
theorem rollback_preserves_store (ops : List Op) (db : Database) :
    storeUnchanged db ((applyOps ops (db.transact false)).rollback).db ∧
    ((applyOps ops (db.transact false)).rollback).changes = [] :=
  ⟨applyOps_store ops (db.transact false), rfl⟩

/-! ### C7 and C8: the migration runner -/

theorem getCurrentVersion_store (s : TxState) :
    storeUnchanged s.db ((getCurrentVersion s).2).db := by
  unfold getCurrentVersion
  rcases hg : s.get "migration" "current_version" with ⟨⟨entity, found⟩, s'⟩
  have h : storeUnchanged s.db s'.db := by
    have := get_store s "migration" "current_version"
    rw [hg] at this
    exact this
  cases found with
  | false => exact h
  | true =>
    cases entity with
    | none => exact h
    | some e =>
      cases e with
      | record id fs => exact h
      | migrationVersion id v => exact h

theorem runMigrations_filter (hooks : Hooks) (target cur : Int) :
    ∀ (migs : List Migration) (s : TxState),
      runMigrations hooks target cur
        (migs.filter fun m =>
          decide (cur < m.version) && decide (m.version ≤ target)) s =
      runMigrations hooks target cur migs s := by
  intro migs
  induction migs with
  | nil => intro s; rfl
  | cons m rest ih =>
    intro s
    by_cases hc : cur < m.version ∧ m.version ≤ target
    · have hd : (decide (cur < m.version) && decide (m.version ≤ target)) = true := by
        simp [hc.1, hc.2]
      rw [List.filter_cons]
      rw [if_pos hd]
      unfold runMigrations
      rw [if_pos hc, if_pos hc]
      obtain ⟨s1, err1⟩ := m.up s
      cases err1 with
      | some e => rfl
      | none =>
        dsimp only
        obtain ⟨s2, err2⟩ := setCurrentVersion s1 hooks m.version
        cases err2 with
        | some e => rfl
        | none => exact ih s2
    · have hd : ¬ ((decide (cur < m.version) && decide (m.version ≤ target)) = true) := by
        simpa [Bool.and_eq_true, decide_eq_true_eq] using hc
      rw [List.filter_cons]
      rw [if_neg hd]
      rw [ih s]
      show runMigrations hooks target cur rest s =
        runMigrations hooks target cur (m :: rest) s
      conv_rhs => rw [runMigrations]
      rw [if_neg hc]

theorem runMigrations_skip_all (hooks : Hooks) (target cur : Int) :
    ∀ (migs : List Migration) (s : TxState),
      (∀ m ∈ migs, ¬ (cur < m.version ∧ m.version ≤ target)) →
      runMigrations hooks target cur migs s = (s, none) := by
  intro migs
  induction migs with
  | nil => intro s _; rfl
  | cons m rest ih =>
    intro s hno
    unfold runMigrations
    rw [if_neg (hno m (List.mem_cons_self m rest))]
    exact ih s fun m' hm' => hno m' (List.mem_cons_of_mem m hm')

theorem runMigrations_store (target cur : Int) :
    ∀ (migs : List Migration), stageOnly migs →
      ∀ s : TxState,
        storeUnchanged s.db ((runMigrations noHooks target cur migs s).1).db := by
  intro migs
  induction migs with
  | nil => intro _ s; exact storeUnchanged_refl _
  | cons m rest ih =>
    intro hup s
    have hm : storeUnchanged s.db ((m.up s).1).db :=
      hup m (List.mem_cons_self m rest) s
    have hrest : stageOnly rest := fun m' hm' s' =>
      hup m' (List.mem_cons_of_mem m hm') s'
    unfold runMigrations
    by_cases hc : cur < m.version ∧ m.version ≤ target
    · rw [if_pos hc]
      rcases hu : m.up s with ⟨s1, err1⟩
      rw [hu] at hm
      cases err1 with
      | some e => exact hm
      | none =>
        dsimp only
        rcases hsv : setCurrentVersion s1 noHooks m.version with ⟨s2, err2⟩
        have h2 : s2.db = s1.db := by
          have hset := set_noHooks_db s1 "migration"
            (.migrationVersion "current_version" m.version)
          unfold setCurrentVersion at hsv
          rw [hsv] at hset
          exact hset
        have hs2 : storeUnchanged s.db s2.db := by
          rw [h2]
          exact hm
        cases err2 with
        | some e => exact hs2
        | none => exact storeUnchanged_trans hs2 (ih hrest s2)
    · rw [if_neg hc]
      exact ih hrest s

theorem commit_true_ret_err_none (s s' : TxState) (err : Option String)
    (h : s.commit true = .ret (s', err)) : err = none := by
  unfold TxState.commit at h
  by_cases hro : s.readOnly = true
  · rw [if_pos hro] at h
    injection h with h1
    injection h1 with h2 h3
    exact h3.symm
  · rw [if_neg hro] at h
    cases hcc : commitChanges s.db s.changes with
    | error msg => rw [hcc] at h; simp at h
    | ok db2 =>
      rw [hcc] at h
      simp only [if_pos] at h
      injection h with h1
      injection h1 with h2 h3
      exact h3.symm

/-- C7 (amended): `Migrate` applies exactly the registered migrations
whose version v satisfies currentVersion < v ≤ target, invoking their
up-functions in REGISTRATION order — ascending version order only when
they were registered ascending (first conjunct: running the registration
list equals running its filtered selection, in list order); and if any
up-function or marker update fails, the transaction is never committed:
with no hooks, stage-only up-functions and a working save, a failing run
returns the error with canonical map, indexes and persisted file
unchanged (second conjunct). -/
theorem migrate_selection_order_and_abort (migs : List Migration)
    (saveOk : Bool) (db : Database) (t : Int) :
    (∀ cur s0, getCurrentVersion (db.transact false) = (.ok cur, s0) →
      migrate noHooks migs saveOk db t =
        migrate noHooks (migs.filter fun m =>
          decide (cur < m.version) && decide (m.version ≤ t)) saveOk db t) ∧
    (stageOnly migs → saveOk = true →
      ∀ db' err, migrate noHooks migs saveOk db t = .ret (db', some err) →
        storeUnchanged db db') := by
  constructor
  · intro cur s0 hcv
    unfold migrate
    dsimp only
    rw [hcv]
    dsimp only
    rw [runMigrations_filter]
  · intro hup hsk db' err h
    subst hsk
    unfold migrate at h
    dsimp only at h
    rcases hcv : getCurrentVersion (db.transact false) with ⟨r, s0⟩
    have hs0 : storeUnchanged db s0.db := by
      have := getCurrentVersion_store (db.transact false)
      rw [hcv] at this
      exact this
    rw [hcv] at h
    cases r with
    | error msg =>
      dsimp only at h
      injection h with h1
      injection h1 with h2 h3
      rw [← h2]
      exact hs0
    | ok cur =>
      dsimp only at h
      rcases hrm : runMigrations noHooks t cur migs s0 with ⟨s1, err1⟩
      have hs1 : storeUnchanged db s1.db := by
        refine storeUnchanged_trans hs0 ?_
        have := runMigrations_store t cur migs hup s0
        rw [hrm] at this
        exact this
      rw [hrm] at h
      cases err1 with
      | some e =>
        dsimp only at h
        injection h with h1
        injection h1 with h2 h3
        rw [← h2]
        exact hs1
      | none =>
        dsimp only at h
        cases hcm : s1.commit true with
        | panicked msg => rw [hcm] at h; simp at h
        | ret v =>
          obtain ⟨s2, errC⟩ := v
          have : errC = none := commit_true_ret_err_none s1 s2 errC hcm
          subst this
          rw [hcm] at h
          simp at h

/-- C7 witness: over a single immediately-failing migration, the run
equals the run of its filtered selection, and the failing Migrate(1)
leaves the empty store's canonical map, indexes and file unchanged. -/
theorem migrate_selection_order_and_abort_witness :
    migrate noHooks [demoFailMig] true (newDatabase none) 1 =
      migrate noHooks ([demoFailMig].filter fun m =>
        decide ((0 : Int) < m.version) && decide (m.version ≤ 1)) true
        (newDatabase none) 1 ∧
    storeUnchanged (newDatabase none) (newDatabase none) := by
  have h := migrate_selection_order_and_abort [demoFailMig] true
    (newDatabase none) 1
  refine ⟨h.1 0 ((newDatabase none).transact false) rfl, ?_⟩
  refine h.2 ?_ rfl (newDatabase none) "boom" rfl
  intro m hm s
  rw [List.mem_singleton] at hm
  subst hm
  exact storeUnchanged_refl s.db

/-- C8 (amended): `Migrate(target)` twice is idempotent provided no
registered migration's version lies in (v*, target], where v* is the
version marker resulting from the first call — guaranteed when
migrations are registered in ascending version order, but violated by
out-of-order registrations (see the counterexample).  Under that proviso
the second call succeeds, invokes no up-function, and returns the store
unchanged (the commit of the empty overlay rewrites the file with the
identical snapshot). -/
theorem migrate_idempotent_without_pending_migrations
    (migs : List Migration) (db db' : Database) (t cur' : Int)
    (h1 : migrate noHooks migs true db t = .ret (db', none))
    (hfile : db'.file = some db'.data)
    (h2 : getCurrentVersion (db'.transact false) =
      (.ok cur', db'.transact false))
    (h3 : ∀ m ∈ migs, ¬ (cur' < m.version ∧ m.version ≤ t)) :
    migrate noHooks migs true db' t = .ret (db', none) := by
  have hdb : ({ db' with file := some db'.data } : Database) = db' := by
    rcases db' with ⟨d, ix, c, f⟩
    simp only at hfile
    simp [hfile]
  unfold migrate
  dsimp only
  rw [h2]
  dsimp only
  rw [runMigrations_skip_all noHooks t cur' migs (db'.transact false) h3]
  show Outcome.ret (({ db' with file := some db'.data } : Database),
    (none : Option String)) = .ret (db', none)
  rw [hdb]

/-- C8 witness: a single ascending migration, migrated to target 1 and
then migrated again: the second call returns the store unchanged. -/
theorem migrate_idempotent_witness :
    migrate noHooks demoGoodMigs true demoGoodDb1 1 = .ret (demoGoodDb1, none) := by
  refine migrate_idempotent_without_pending_migrations demoGoodMigs
    (newDatabase none) demoGoodDb1 1 1 rfl rfl rfl ?_
  intro m hm
  simp only [demoGoodMigs, List.mem_singleton] at hm
  subst hm
  decide

/-! ### C6: read-your-committed-writes -/

theorem commitEntity_cache_eq {db : Database} {t' i' : String}
    {e' : Option Entity} {db' : Database}
    (h : commitEntity db t' i' e' = .ok db') :
    db'.cache = (match e' with
      | none => eraseA db.cache (getCacheKey t' i')
      | some en => insertA db.cache (getCacheKey t' i') en) := by
  cases e' with
  | none =>
    unfold commitEntity at h
    simp only at h
    split at h
    · simp only [Except.ok.injEq] at h
      subst h
      rfl
    · split at h
      · simp at h
      · simp only [Except.ok.injEq] at h
        subst h
        rfl
  | some en =>
    unfold commitEntity at h
    simp only at h
    split at h
    · simp only [Except.ok.injEq] at h
      subst h
      rfl
    · split at h
      · simp at h
      · simp only [Except.ok.injEq] at h
        subst h
        rfl

theorem commitEntity_cache {db : Database} {t' i' : String}
    {e' : Option Entity} {db' : Database} {key : String} {e : Entity}
    (h : commitEntity db t' i' e' = .ok db')
    (hcol : getCacheKey t' i' = key → e' = some e)
    (hcur : getCacheKey t' i' = key ∨ lookupA db.cache key = some e) :
    lookupA db'.cache key = some e := by
  rw [commitEntity_cache_eq h]
  by_cases hk : getCacheKey t' i' = key
  · have he' : e' = some e := hcol hk
    subst he'
    dsimp only
    rw [hk, lookupA_insertA]
    simp
  · have hcur' : lookupA db.cache key = some e := by
      rcases hcur with h1 | h2
      · exact absurd h1 hk
      · exact h2
    cases e' with
    | none =>
      dsimp only
      rw [lookupA_eraseA_ne _ hk]
      exact hcur'
    | some en =>
      dsimp only
      rw [lookupA_insertA, if_neg hk]
      exact hcur'

theorem commitTypeChanges_cache {t' key : String} {e : Entity} :
    ∀ {es : List (String × Option Entity)} {db db' : Database},
      commitTypeChanges db t' es = .ok db' →
      (∀ q ∈ es, getCacheKey t' q.1 = key → q.2 = some e) →
      (lookupA db.cache key = some e ∨ ∃ q ∈ es, getCacheKey t' q.1 = key) →
      lookupA db'.cache key = some e := by
  intro es
  induction es with
  | nil =>
    intro db db' h hall hstart
    simp only [commitTypeChanges, Except.ok.injEq] at h
    rcases hstart with hcache | ⟨q, hq, _⟩
    · rw [← h]
      exact hcache
    · simp at hq
  | cons p rest ih =>
    obtain ⟨j, ej⟩ := p
    intro db db' h hall hstart
    unfold commitTypeChanges at h
    cases hce : commitEntity db t' j ej with
    | error msg => rw [hce] at h; simp at h
    | ok db2 =>
      rw [hce] at h
      dsimp only at h
      have hallrest : ∀ q ∈ rest, getCacheKey t' q.1 = key → q.2 = some e :=
        fun q hq => hall q (List.mem_cons_of_mem _ hq)
      by_cases hk : getCacheKey t' j = key
      · have hej : ej = some e := hall (j, ej) (List.mem_cons_self _ _) hk
        have h2 : lookupA db2.cache key = some e :=
          commitEntity_cache hce (fun _ => hej) (Or.inl hk)
        exact ih h hallrest (Or.inl h2)
      · rcases hstart with hcache | ⟨q, hq, hqk⟩
        · have h2 : lookupA db2.cache key = some e :=
            commitEntity_cache hce (fun hk' => absurd hk' hk) (Or.inr hcache)
          exact ih h hallrest (Or.inl h2)
        · rcases List.mem_cons.mp hq with rfl | hq'
          · exact absurd hqk hk
          · exact ih h hallrest (Or.inr ⟨q, hq', hqk⟩)

theorem commitChanges_cache {key : String} {e : Entity} :
    ∀ {changes : List (String × List (String × Option Entity))}
      {db db' : Database},
      commitChanges db changes = .ok db' →
      (∀ p ∈ changes, ∀ q ∈ p.2, getCacheKey p.1 q.1 = key → q.2 = some e) →
      (lookupA db.cache key = some e ∨
        ∃ p ∈ changes, ∃ q ∈ p.2, getCacheKey p.1 q.1 = key) →
      lookupA db'.cache key = some e := by
  intro changes
  induction changes with
  | nil =>
    intro db db' h hall hstart
    simp only [commitChanges, Except.ok.injEq] at h
    rcases hstart with hcache | ⟨p, hp, _⟩
    · rw [← h]
      exact hcache
    · simp at hp
  | cons p0 rest ih =>
    obtain ⟨t0, m0⟩ := p0
    intro db db' h hall hstart
    unfold commitChanges at h
    cases hct : commitTypeChanges db t0 m0 with
    | error msg => rw [hct] at h; simp at h
    | ok db2 =>
      rw [hct] at h
      dsimp only at h
      have hallrest : ∀ p ∈ rest, ∀ q ∈ p.2, getCacheKey p.1 q.1 = key →
          q.2 = some e :=
        fun p hp => hall p (List.mem_cons_of_mem _ hp)
      have hallhead : ∀ q ∈ m0, getCacheKey t0 q.1 = key → q.2 = some e :=
        fun q hq => hall (t0, m0) (List.mem_cons_self _ _) q hq
      rcases hstart with hcache | ⟨p, hp, q, hq, hqk⟩
      · have h2 : lookupA db2.cache key = some e :=
          commitTypeChanges_cache hct hallhead (Or.inl hcache)
        exact ih h hallrest (Or.inl h2)
      · rcases List.mem_cons.mp hp with rfl | hp'
        · have h2 : lookupA db2.cache key = some e :=
            commitTypeChanges_cache hct hallhead (Or.inr ⟨q, hq, hqk⟩)
          exact ih h hallrest (Or.inl h2)
        · exact ih h hallrest (Or.inr ⟨p, hp', q, hq, hqk⟩)

/-- C6 (amended): read-your-committed-writes holds in the absence of
cache-key collisions.  If a write transaction's overlay stages the
record `e` under (t, i), every staged entry whose cache key
(type + ":" + id) coincides with (t, i)'s stages that same record, and
the commit succeeds, then Get for (t, i) — within the same transaction
(the overlay still holds `e`) or in a freshly opened one (the cache was
refreshed with `e`) — returns exactly the record that was set.  Distinct
(type, id) pairs sharing a cache key break the fresh-transaction half
(see the counterexample). -/
theorem committed_set_then_get_returns_record
    (saveOk : Bool) (s s' : TxState) (t i : String) (e : Entity)
    (hro : s.readOnly = false)
    (hst : changesLookup s.changes t i = some (some e))
    (hkey : keyMapsTo t i e s.changes)
    (hcm : s.commit saveOk = .ret (s', none)) :
    (s'.get t i).1 = (some e, true) ∧
    ((s'.db.transact true).get t i).1 = (some e, true) := by
  obtain ⟨m, hm1, hm2⟩ : ∃ m, lookupA s.changes t = some m ∧
      lookupA m i = some (some e) := by
    unfold changesLookup at hst
    cases hl : lookupA s.changes t with
    | none => rw [hl] at hst; simp at hst
    | some m => rw [hl] at hst; exact ⟨m, rfl, by simpa using hst⟩
  unfold TxState.commit at hcm
  rw [if_neg (by simp [hro] : ¬ s.readOnly = true)] at hcm
  cases hcc : commitChanges s.db s.changes with
  | error msg => rw [hcc] at hcm; simp at hcm
  | ok db2 =>
    rw [hcc] at hcm
    dsimp only at hcm
    cases saveOk with
    | false => simp at hcm
    | true =>
      rw [if_pos rfl] at hcm
      injection hcm with h1
      injection h1 with h2 h3
      subst h2
      constructor
      · unfold TxState.get
        dsimp only
        rw [hm1]
        dsimp only
        rw [hm2]
      · have hcache : lookupA db2.cache (getCacheKey t i) = some e :=
          commitChanges_cache hcc hkey
            (Or.inr ⟨(t, m), mem_of_lookupA hm1,
              (i, some e), mem_of_lookupA hm2, rfl⟩)
        unfold Database.transact TxState.get TxState.getFromDb
        dsimp only [lookupA]
        rw [hcache]

/-- C6 witness: committing the staged `demoRecA` under ("test", "1") and
reading it back in the same transaction and in a fresh one. -/
theorem committed_set_then_get_witness :
    (demoTx1c.get "test" "1").1 = (some demoRecA, true) ∧
    ((demoDb1.transact true).get "test" "1").1 = (some demoRecA, true) :=
  committed_set_then_get_returns_record true demoTx1 demoTx1c "test" "1"
    demoRecA rfl rfl (by unfold keyMapsTo; decide) rfl

end FlexDB
